import Mathlib

/-!
# PorterFS — verification of the storage engine, signature verifier and dispatcher

A shallow embedding of the PorterFS sources:

* `internal/storage/local.go` — path resolution (`filepath.Join`/`Clean`),
  object CRUD, range reads, listing, multipart completion;
* `internal/auth/auth.go` — AWS Signature V4 canonicalization and
  verification (with executable MD5, SHA-256 and HMAC-SHA256 over `Nat`,
  truncated at `2^32` where the Go code uses `uint32`);
* the router in `internal/server` — the method/query dispatch for
  `/{bucket}/{object}` routes.

The filesystem is modelled as an association list from paths to byte
contents; bytes are `Nat` values below 256; machine words are `Nat` with
explicit reduction modulo `2^32`.
-/

set_option maxRecDepth 8000
set_option maxHeartbeats 4000000

namespace PorterFS

/-! ## 32-bit word arithmetic over `Nat` -/

/-- Truncate to a 32-bit word. -/
def w32 (n : Nat) : Nat := n % 4294967296

/-- Rotate a 32-bit word left by `s` bits (callers keep `x < 2^32`). -/
def rotl (x s : Nat) : Nat := ((x <<< s) % 4294967296) ||| (x >>> (32 - s))

/-- Rotate a 32-bit word right by `s` bits. -/
def rotr (x s : Nat) : Nat := (x >>> s) ||| ((x <<< (32 - s)) % 4294967296)

/-- Bitwise complement of a 32-bit word. -/
def not32 (x : Nat) : Nat := 4294967295 ^^^ x

/-- Little-endian bytes of a 32-bit word. -/
def le32 (n : Nat) : List Nat := [n % 256, n / 256 % 256, n / 65536 % 256, n / 16777216 % 256]

/-- Little-endian bytes of a 64-bit word. -/
def le64 (n : Nat) : List Nat := le32 (n % 4294967296) ++ le32 (n / 4294967296)

/-- Big-endian bytes of a 32-bit word. -/
def be32 (n : Nat) : List Nat := [n / 16777216 % 256, n / 65536 % 256, n / 256 % 256, n % 256]

/-- Big-endian bytes of a 64-bit word. -/
def be64 (n : Nat) : List Nat := be32 (n / 4294967296) ++ be32 (n % 4294967296)

/-- Group a byte list into 32-bit words, little-endian (MD5). -/
def wordsLE : List Nat → List Nat
  | b0 :: b1 :: b2 :: b3 :: rest => (b0 + 256 * b1 + 65536 * b2 + 16777216 * b3) :: wordsLE rest
  | _ => []

/-- Group a byte list into 32-bit words, big-endian (SHA-256). -/
def wordsBE : List Nat → List Nat
  | b0 :: b1 :: b2 :: b3 :: rest => (16777216 * b0 + 65536 * b1 + 256 * b2 + b3) :: wordsBE rest
  | _ => []

/-- Zero bytes needed between the `0x80` marker and the 8-byte length so the
padded message length is a multiple of 64. -/
def padZeros (l : List Nat) : Nat := (119 - l.length % 64) % 64

/-- Split into 64-byte blocks; `fuel` bounds the recursion (pass the length). -/
def chunks64 : Nat → List Nat → List (List Nat)
  | 0, _ => []
  | _, [] => []
  | fuel + 1, l => l.take 64 :: chunks64 fuel (l.drop 64)

/-! ## MD5 (RFC 1321), as used by Go `crypto/md5` for ETags -/

/-- The 64 MD5 sine-derived constants. -/
def md5K : List Nat :=
  [0xd76aa478, 0xe8c7b756, 0x242070db, 0xc1bdceee,
   0xf57c0faf, 0x4787c62a, 0xa8304613, 0xfd469501,
   0x698098d8, 0x8b44f7af, 0xffff5bb1, 0x895cd7be,
   0x6b901122, 0xfd987193, 0xa679438e, 0x49b40821,
   0xf61e2562, 0xc040b340, 0x265e5a51, 0xe9b6c7aa,
   0xd62f105d, 0x02441453, 0xd8a1e681, 0xe7d3fbc8,
   0x21e1cde6, 0xc33707d6, 0xf4d50d87, 0x455a14ed,
   0xa9e3e905, 0xfcefa3f8, 0x676f02d9, 0x8d2a4c8a,
   0xfffa3942, 0x8771f681, 0x6d9d6122, 0xfde5380c,
   0xa4beea44, 0x4bdecfa9, 0xf6bb4b60, 0xbebfbc70,
   0x289b7ec6, 0xeaa127fa, 0xd4ef3085, 0x04881d05,
   0xd9d4d039, 0xe6db99e5, 0x1fa27cf8, 0xc4ac5665,
   0xf4292244, 0x432aff97, 0xab9423a7, 0xfc93a039,
   0x655b59c3, 0x8f0ccc92, 0xffeff47d, 0x85845dd1,
   0x6fa87e4f, 0xfe2ce6e0, 0xa3014314, 0x4e0811a1,
   0xf7537e82, 0xbd3af235, 0x2ad7d2bb, 0xeb86d391]

/-- The MD5 per-round left-rotation amounts. -/
def md5S : List Nat :=
  [7, 12, 17, 22, 7, 12, 17, 22, 7, 12, 17, 22, 7, 12, 17, 22,
   5, 9, 14, 20, 5, 9, 14, 20, 5, 9, 14, 20, 5, 9, 14, 20,
   4, 11, 16, 23, 4, 11, 16, 23, 4, 11, 16, 23, 4, 11, 16, 23,
   6, 10, 15, 21, 6, 10, 15, 21, 6, 10, 15, 21, 6, 10, 15, 21]

/-- MD5 round function and message-word index for step `i`. -/
def md5F (i b c d : Nat) : Nat × Nat :=
  if i < 16 then ((b &&& c) ||| (not32 b &&& d), i)
  else if i < 32 then ((d &&& b) ||| (not32 d &&& c), (5 * i + 1) % 16)
  else if i < 48 then (b ^^^ c ^^^ d, (3 * i + 5) % 16)
  else (c ^^^ (b ||| not32 d), (7 * i) % 16)

/-- One MD5 step on the `(a, b, c, d)` state; the step index and its round
constant and rotation are supplied together to keep reduction linear. -/
def md5Step (m : List Nat) (st : Nat × Nat × Nat × Nat) (iks : Nat × Nat × Nat) :
    Nat × Nat × Nat × Nat :=
  let (a, b, c, d) := st
  let (f, g) := md5F iks.1 b c d
  let f2 := (f + a + iks.2.1 + m.getD g 0) % 4294967296
  (d, (b + rotl f2 iks.2.2) % 4294967296, b, c)

/-- The MD5 step table: step index, round constant, rotation amount. -/
def md5Table : List (Nat × Nat × Nat) := (List.range 64).zip (md5K.zip md5S)

/-- Absorb one 64-byte block into the MD5 state. -/
def md5Block (st : Nat × Nat × Nat × Nat) (block : List Nat) : Nat × Nat × Nat × Nat :=
  let m := wordsLE block
  let (a0, b0, c0, d0) := st
  let (a, b, c, d) := md5Table.foldl (md5Step m) st
  ((a0 + a) % 4294967296, (b0 + b) % 4294967296, (c0 + c) % 4294967296, (d0 + d) % 4294967296)

/-- MD5 padding: `0x80`, zeros, then the bit length as 64-bit little-endian. -/
def md5Pad (m : List Nat) : List Nat :=
  m ++ 128 :: List.replicate (padZeros m) 0 ++ le64 ((8 * m.length) % 18446744073709551616)

/-- The 16-byte MD5 digest of a byte list. -/
def md5 (msg : List Nat) : List Nat :=
  let padded := md5Pad msg
  let (a, b, c, d) :=
    (chunks64 padded.length padded).foldl md5Block
      (0x67452301, 0xefcdab89, 0x98badcfe, 0x10325476)
  le32 a ++ le32 b ++ le32 c ++ le32 d

/-- Lowercase hexadecimal digit. -/
def hexDigit (n : Nat) : Char := if n < 10 then Char.ofNat (48 + n) else Char.ofNat (87 + n)

/-- Uppercase hexadecimal digit. -/
def hexDigitUpper (n : Nat) : Char := if n < 10 then Char.ofNat (48 + n) else Char.ofNat (55 + n)

/-- Lowercase hex of a byte list, two digits per byte. -/
def bytesToHex (l : List Nat) : List Char :=
  l.flatMap (fun b => [hexDigit (b / 16 % 16), hexDigit (b % 16)])

/-- The bytes of an ASCII string. -/
def strBytes (s : String) : List Nat := s.data.map Char.toNat

/-- Model of `fmt.Sprintf "%x" (md5.Sum bytes)`: lowercase hex MD5 digest. -/
def md5Hex (l : List Nat) : String := String.mk (bytesToHex (md5 l))

/-! ## SHA-256 (FIPS 180-4) and HMAC-SHA256 (Go `crypto/sha256`, `crypto/hmac`) -/

/-- The 64 SHA-256 round constants. -/
def sha256K : List Nat :=
  [1116352408, 1899447441, 3049323471, 3921009573, 961987163, 1508970993,
   2453635748, 2870763221, 3624381080, 310598401, 607225278, 1426881987,
   1925078388, 2162078206, 2614888103, 3248222580, 3835390401, 4022224774,
   264347078, 604807628, 770255983, 1249150122, 1555081692, 1996064986,
   2554220882, 2821834349, 2952996808, 3210313671, 3336571891, 3584528711,
   113926993, 338241895, 666307205, 773529912, 1294757372, 1396182291,
   1695183700, 1986661051, 2177026350, 2456956037, 2730485921, 2820302411,
   3259730800, 3345764771, 3516065817, 3600352804, 4094571909, 275423344,
   430227734, 506948616, 659060556, 883997877, 958139571, 1322822218,
   1537002063, 1747873779, 1955562222, 2024104815, 2227730452, 2361852424,
   2428436474, 2756734187, 3204031479, 3329325298]

/-- Model of `Ch(x,y,z)`. -/
def ch32 (x y z : Nat) : Nat := (x &&& y) ^^^ (not32 x &&& z)

/-- Model of `Maj(x,y,z)`. -/
def maj32 (x y z : Nat) : Nat := (x &&& y) ^^^ (x &&& z) ^^^ (y &&& z)

/-- Model of `Σ₀`. -/
def bsig0 (x : Nat) : Nat := rotr x 2 ^^^ rotr x 13 ^^^ rotr x 22

/-- Model of `Σ₁`. -/
def bsig1 (x : Nat) : Nat := rotr x 6 ^^^ rotr x 11 ^^^ rotr x 25

/-- Model of `σ₀`. -/
def ssig0 (x : Nat) : Nat := rotr x 7 ^^^ rotr x 18 ^^^ (x >>> 3)

/-- Model of `σ₁`. -/
def ssig1 (x : Nat) : Nat := rotr x 17 ^^^ rotr x 19 ^^^ (x >>> 10)

/-- Extend the message schedule, kept in reverse so each new word reads its
four predecessors in constant time. -/
def sha256ScheduleRev (wrev : List Nat) : Nat → List Nat
  | 0 => wrev
  | n + 1 =>
    sha256ScheduleRev
      (((ssig1 (wrev.getD 1 0) + wrev.getD 6 0 + ssig0 (wrev.getD 14 0) + wrev.getD 15 0) %
        4294967296) :: wrev) n

/-- The 64-entry message schedule of one block. -/
def sha256Schedule (ws : List Nat) : List Nat :=
  (sha256ScheduleRev ws.reverse 48).reverse

/-- The SHA-256 working state: `(a, b, c, d, e, f, g, h)`. -/
abbrev Sha256St := Nat × Nat × Nat × Nat × Nat × Nat × Nat × Nat

/-- One SHA-256 compression round; the round constant and schedule word are
supplied as a pair. -/
def sha256Round (st : Sha256St) (kw : Nat × Nat) : Sha256St :=
  let (a, b, c, d, e, f, g, h) := st
  let t1 := (h + bsig1 e + ch32 e f g + kw.1 + kw.2) % 4294967296
  let t2 := (bsig0 a + maj32 a b c) % 4294967296
  ((t1 + t2) % 4294967296, a, b, c, (d + t1) % 4294967296, e, f, g)

/-- Absorb one 64-byte block into the SHA-256 state. -/
def sha256Block (st : Sha256St) (block : List Nat) : Sha256St :=
  let w := sha256Schedule (wordsBE block)
  let (a0, b0, c0, d0, e0, f0, g0, h0) := st
  let (a, b, c, d, e, f, g, h) := (sha256K.zip w).foldl sha256Round st
  ((a0 + a) % 4294967296, (b0 + b) % 4294967296, (c0 + c) % 4294967296, (d0 + d) % 4294967296,
   (e0 + e) % 4294967296, (f0 + f) % 4294967296, (g0 + g) % 4294967296, (h0 + h) % 4294967296)

/-- SHA-256 padding: `0x80`, zeros, then the bit length as 64-bit big-endian. -/
def shaPad (m : List Nat) : List Nat :=
  m ++ 128 :: List.replicate (padZeros m) 0 ++ be64 ((8 * m.length) % 18446744073709551616)

/-- The 32-byte SHA-256 digest of a byte list. -/
def sha256 (msg : List Nat) : List Nat :=
  let padded := shaPad msg
  let (a, b, c, d, e, f, g, h) :=
    (chunks64 padded.length padded).foldl sha256Block
      (0x6a09e667, 0xbb67ae85, 0x3c6ef372, 0xa54ff53a, 0x510e527f, 0x9b05688c, 0x1f83d9ab, 0x5be0cd19)
  be32 a ++ be32 b ++ be32 c ++ be32 d ++ be32 e ++ be32 f ++ be32 g ++ be32 h

/-- HMAC-SHA256 with block size 64 (Go `crypto/hmac`). -/
def hmacSha256 (key data : List Nat) : List Nat :=
  let k0 := if key.length > 64 then sha256 key else key
  let kp := k0 ++ List.replicate (64 - k0.length) 0
  sha256 (kp.map (fun b => b ^^^ 92) ++ sha256 (kp.map (fun b => b ^^^ 54) ++ data))

/-- Model of `auth.go sha256Hash`: lowercase hex SHA-256 of a string's bytes. -/
def sha256Hash (s : String) : String := String.mk (bytesToHex (sha256 (strBytes s)))

/-- Model of `auth.go hmacSHA256` with the result rendered lowercase hex
(`hex.EncodeToString`). -/
def hmacHex (key : List Nat) (data : String) : String :=
  String.mk (bytesToHex (hmacSha256 key (strBytes data)))

/-! ## Go string helpers (`strings` package), over `List Char` -/

/-- Model of `strings.Split` with a one-character separator. -/
def splitOnChar (c : Char) : List Char → List (List Char)
  | [] => [[]]
  | x :: xs =>
    match splitOnChar c xs with
    | [] => [[]]
    | y :: ys => if x = c then [] :: y :: ys else (x :: y) :: ys

/-- Model of `strings.SplitN s sep 2` with a one-character separator: the part before
the first occurrence and the rest, or `none` when the separator is absent. -/
def splitFirst (c : Char) : List Char → Option (List Char × List Char)
  | [] => none
  | x :: xs =>
    if x = c then some ([], xs)
    else (splitFirst c xs).map (fun p => (x :: p.1, p.2))

/-- Go `unicode.IsSpace` restricted to ASCII. -/
def isSpaceGo (c : Char) : Bool :=
  c = ' ' ∨ c = '\t' ∨ c = '\n' ∨ c = Char.ofNat 11 ∨ c = Char.ofNat 12 ∨ c = Char.ofNat 13

/-- Model of `strings.TrimSpace`. -/
def trimSpace (l : List Char) : List Char :=
  ((l.dropWhile isSpaceGo).reverse.dropWhile isSpaceGo).reverse

/-- ASCII lowercase of one character. -/
def lowerChar (c : Char) : Char :=
  if 'A' ≤ c ∧ c ≤ 'Z' then Char.ofNat (c.toNat + 32) else c

/-- Model of `strings.ToLower` for ASCII. -/
def lowerStr (l : List Char) : List Char := l.map lowerChar

/-- Byte-wise string comparison, as used by Go `sort.Strings`. -/
def strLeChars : List Char → List Char → Bool
  | [], _ => true
  | _ :: _, [] => false
  | a :: as_, b :: bs =>
    if a.toNat < b.toNat then true
    else if b.toNat < a.toNat then false
    else strLeChars as_ bs

/-- Insert into a `strLeChars`-sorted list. -/
def sortInsert (x : List Char) : List (List Char) → List (List Char)
  | [] => [x]
  | y :: ys => if strLeChars x y then x :: y :: ys else y :: sortInsert x ys

/-- Model of `sort.Strings`: lexicographic insertion sort. -/
def sortStrings (l : List (List Char)) : List (List Char) :=
  l.foldr sortInsert []

/-- Model of `strconv.ParseInt(s, 10, 64)` restricted to an optional sign and decimal
digits; `none` mirrors a parse error. -/
def parseIntGo (l : List Char) : Option Int :=
  let digits : List Char → Option Nat := fun ds =>
    if ds = [] then none
    else if ds.all (fun c => '0' ≤ c ∧ c ≤ '9') then
      some (ds.foldl (fun acc c => 10 * acc + (c.toNat - 48)) 0)
    else none
  match l with
  | '-' :: rest => (digits rest).map (fun n => -(n : Int))
  | '+' :: rest => (digits rest).map (fun n => (n : Int))
  | _ => (digits l).map (fun n => (n : Int))

/-! ## Paths: Go `path/filepath` on Unix (`Clean`, `Join`) -/

/-- The backtracking step of `filepath.Clean` for a `..` element:
`out.w--; for out.w > dotdot && out.index(out.w) != '/' { out.w-- }`,
returning the new write index. -/
def cleanBackW (written : List Char) (dotdot : Nat) : Nat → Nat
  | 0 => 0
  | w + 1 =>
    if w + 1 > dotdot ∧ written.getD (w + 1) ' ' ≠ '/' then cleanBackW written dotdot w
    else w + 1

/-- Truncate the output buffer as `filepath.Clean` does on `..`. -/
def cleanBack (out : List Char) (dotdot : Nat) : List Char :=
  out.take (cleanBackW out dotdot (out.length - 1))

/-- The element loop of `filepath.Clean`; `fuel` bounds the recursion (the
remaining input length suffices, since every branch consumes input). -/
def cleanLoop (rooted : Bool) : Nat → List Char → List Char → Nat → List Char
  | 0, _, out, _ => out
  | _ + 1, [], out, _ => out
  | fuel + 1, c :: rest, out, dotdot =>
    if c = '/' then
      cleanLoop rooted fuel rest out dotdot
    else if c = '.' ∧ (rest = [] ∨ rest.head? = some '/') then
      cleanLoop rooted fuel rest out dotdot
    else if c = '.' ∧ rest.head? = some '.' ∧ (rest.tail = [] ∨ rest.tail.head? = some '/') then
      if out.length > dotdot then
        cleanLoop rooted fuel rest.tail (cleanBack out dotdot) dotdot
      else if ¬ rooted then
        let out2 := (if out.length > 0 then out ++ ['/'] else out) ++ ['.', '.']
        cleanLoop rooted fuel rest.tail out2 out2.length
      else
        cleanLoop rooted fuel rest.tail out dotdot
    else
      let out2 := (if (rooted ∧ out.length ≠ 1) ∨ (¬ rooted ∧ out.length ≠ 0)
                   then out ++ ['/'] else out) ++ c :: rest.takeWhile (fun ch => ch ≠ '/')
      cleanLoop rooted fuel (rest.dropWhile (fun ch => ch ≠ '/')) out2 dotdot

/-- Go `filepath.Clean` for the Unix separator. -/
def cleanPath (s : String) : String :=
  let p := s.data
  if p = [] then "."
  else
    let rooted := p.head? = some '/'
    let body := if rooted then p.tail else p
    let out := if rooted then cleanLoop rooted body.length body ['/'] 1
               else cleanLoop rooted body.length body [] 0
    if out.length = 0 then "." else String.mk out

/-- Go `filepath.Join`: skip leading empty elements, join the rest with `/`,
then `Clean`; all-empty input yields `""`. -/
def joinPath : List String → String
  | [] => ""
  | e :: rest => if e = "" then joinPath rest else cleanPath (String.intercalate "/" (e :: rest))

/-! ## The filesystem model

The storage side effects of `local.go` are modelled over an association
list from absolute paths to file contents (bytes). Directories exist
exactly when some file lies beneath them; `MkdirAll` is a no-op. -/

/-- A filesystem: file paths mapped to byte contents. -/
abbrev Fs := List (String × List Nat)

/-- Contents of the file at `p`, when it exists. -/
def fsRead (fs : Fs) (p : String) : Option (List Nat) :=
  (fs.find? (fun e => e.1 = p)).map (fun e => e.2)

/-- Create or truncate-and-write the file at `p` (`os.Create` + `io.Copy`). -/
def fsWrite (fs : Fs) (p : String) (content : List Nat) : Fs :=
  (p, content) :: fs.filter (fun e => e.1 ≠ p)

/-- Append bytes to the file at `p` (a further `io.Copy` into an open file). -/
def fsAppend (fs : Fs) (p : String) (content : List Nat) : Fs :=
  fsWrite fs p (((fsRead fs p).getD []) ++ content)

/-- Remove the file at `p`. -/
def fsRemoveFile (fs : Fs) (p : String) : Fs :=
  fs.filter (fun e => e.1 ≠ p)

/-- Model of `os.Stat` success on a directory: some file lies strictly below `d`. -/
def dirExists (fs : Fs) (d : String) : Bool :=
  fs.any (fun e => (d ++ "/").data.isPrefixOf e.1.data)

/-- Model of `os.RemoveAll` on a directory: drop every file below `d` (and `d` itself). -/
def fsRemoveAll (fs : Fs) (d : String) : Fs :=
  fs.filter (fun e => ¬ ((d ++ "/").data.isPrefixOf e.1.data ∨ e.1 = d))

/-! ## Storage engine (`internal/storage/local.go`) -/

/-- Model of `LocalStorage.bucketPath`. -/
def bucketPath (root bucket : String) : String := joinPath [root, bucket]

/-- Model of `LocalStorage.objectPath`. -/
def objectPath (root bucket key : String) : String := joinPath [bucketPath root bucket, key]

/-- Object metadata as produced by `local.go` (`ObjectInfo`; the
`LastModified` time is not modelled). -/
structure ObjectInfo where
  key : String
  size : Nat
  etag : String
  contentType : String
deriving DecidableEq, Repr

/-- Model of `LocalStorage.PutObject`: ensure parent directories (a no-op here) and
write the object file. The body is written unconditionally; there is no
key validation and no error path besides I/O. -/
def putObject (fs : Fs) (root bucket key : String) (body : List Nat) : Fs :=
  fsWrite fs (objectPath root bucket key) body

/-- Model of `handleRangeRequest`: parse `bytes=start-end` exactly as the Go code
does — empty start means `0`, empty end means `size-1` — validate
`0 ≤ start ≤ end < size`, and slice. -/
def handleRangeRequest (content : List Nat) (info : ObjectInfo) (rangeHeader : String) :
    Except String (List Nat × ObjectInfo) :=
  if ¬ ("bytes=".data.isPrefixOf rangeHeader.data) then
    .error "invalid range header format"
  else
    let rangeSpec := rangeHeader.data.drop 6
    match splitOnChar '-' rangeSpec with
    | [startStr, endStr] =>
      let startRes : Option Int := if startStr ≠ [] then parseIntGo startStr else some 0
      match startRes with
      | none => .error "invalid range start"
      | some start =>
        let endRes : Option Int :=
          if endStr ≠ [] then parseIntGo endStr else some ((info.size : Int) - 1)
        match endRes with
        | none => .error "invalid range end"
        | some stop =>
          if start < 0 ∨ stop ≥ (info.size : Int) ∨ start > stop then
            .error "invalid range"
          else
            let rangeSize := stop - start + 1
            let bytes := (content.drop start.toNat).take rangeSize.toNat
            .ok (bytes, { info with size := rangeSize.toNat })
    | _ => .error "invalid range specification"

/-- Model of `LocalStorage.GetObject`: open the object file, build the `ObjectInfo`
(whose ETag is `fmt.Sprintf("%x", md5.Sum([]byte(key)))` — the MD5 of the
KEY), and dispatch to the range handler when a `Range` header is present. -/
def getObject (fs : Fs) (root bucket key rangeHeader : String) :
    Except String (List Nat × ObjectInfo) :=
  match fsRead fs (objectPath root bucket key) with
  | none => .error "not found"
  | some content =>
    let info : ObjectInfo :=
      { key := key, size := content.length, etag := md5Hex (strBytes key),
        contentType := "application/octet-stream" }
    if rangeHeader ≠ "" then handleRangeRequest content info rangeHeader
    else .ok (content, info)

/-- Model of `LocalStorage.DeleteObject` is exactly `os.Remove(objectPath)`: removing
a missing file is an error, not a success. -/
def deleteObject (fs : Fs) (root bucket key : String) : Except String Fs :=
  if (fsRead fs (objectPath root bucket key)).isSome then
    .ok (fsRemoveFile fs (objectPath root bucket key))
  else
    .error "no such file or directory"

/-- Model of `LocalStorage.HeadObject`: stat the object file and report the same
info fields as `GetObject` (again the ETag is the MD5 of the key). -/
def headObject (fs : Fs) (root bucket key : String) : Except String ObjectInfo :=
  match fsRead fs (objectPath root bucket key) with
  | none => .error "not found"
  | some content =>
    .ok { key := key, size := content.length, etag := md5Hex (strBytes key),
          contentType := "application/octet-stream" }

/-- First path component of a relative path (up to the first `/`). -/
def firstSeg (l : List Char) : List Char := l.takeWhile (fun c => c ≠ '/')

/-- Paths in `fs` that lie strictly below directory `d`, relative to `d`. -/
def relPaths (fs : Fs) (d : String) : List (List Char) :=
  fs.filterMap (fun e =>
    if (d ++ "/").data.isPrefixOf e.1.data then some (e.1.data.drop (d.length + 1)) else none)

/-- Deduplicate while keeping the first occurrence. -/
def dedup : List (List Char) → List (List Char)
  | [] => []
  | x :: xs => x :: (dedup xs).filter (fun y => y ≠ x)

/-- Model of `os.ReadDir d`: the sorted entry names with a directory flag. An entry
is a directory when some file lies strictly below it. -/
def dirEntries (fs : Fs) (d : String) : List (List Char × Bool) :=
  let rels := relPaths fs d
  (sortStrings (dedup (rels.map firstSeg))).map
    (fun name => (name, rels.any (fun rp => firstSeg rp = name ∧ rp ≠ name)))

/-- The entry loop of `LocalStorage.ListObjects`: the `maxKeys` bound is
checked first (returning truncated), directories are skipped, and names
failing the prefix filter are skipped. -/
def listLoop (fs : Fs) (dir : String) (pre : String) (maxKeys : Nat) :
    List (List Char × Bool) → Nat → List ObjectInfo → List ObjectInfo × Bool
  | [], _, acc => (acc.reverse, false)
  | (name, isDir) :: rest, count, acc =>
    if count ≥ maxKeys then (acc.reverse, true)
    else if isDir then listLoop fs dir pre maxKeys rest count acc
    else if pre ≠ "" ∧ ¬ (pre.data.isPrefixOf name) then listLoop fs dir pre maxKeys rest count acc
    else
      let size := ((fsRead fs (dir ++ "/" ++ String.mk name)).getD []).length
      let info : ObjectInfo :=
        { key := String.mk name, size := size,
          etag := md5Hex (name.map Char.toNat),
          contentType := "application/octet-stream" }
      listLoop fs dir pre maxKeys rest (count + 1) (info :: acc)

/-- Model of `LocalStorage.ListObjects`: read the bucket directory and run the entry
loop (the missing-bucket error path is not modelled; an absent bucket
directory simply has no entries). -/
def listObjects (fs : Fs) (root bucket pre : String) (maxKeys : Nat) :
    List ObjectInfo × Bool :=
  listLoop fs (bucketPath root bucket) pre maxKeys (dirEntries fs (bucketPath root bucket)) 0 []

/-! ## Multipart upload (`local.go`) -/

/-- A listed part in a CompleteMultipartUpload request. -/
structure Part where
  partNumber : Int
  eTag : String
deriving DecidableEq, Repr

/-- Model of `fmt.Sprintf("part-%05d", n)`: zero-pad to width 5 (sign included). -/
def partFileName (n : Int) : String :=
  let digits := toString n.natAbs
  let pad := fun (w : Nat) (s : String) =>
    String.mk (List.replicate (w - s.length) '0' ++ s.data)
  if n < 0 then "part-" ++ "-" ++ pad 4 digits else "part-" ++ pad 5 digits

/-- The sidecar directory `R/.multipart/<bucket>/<upload-id>`. -/
def multipartDir (root bucket uploadID : String) : String :=
  joinPath [root, ".multipart", bucket, uploadID]

/-- Model of `LocalStorage.InitMultipartUpload` with the upload id supplied (the Go
code derives it from the wall clock): create the sidecar and its metadata
file. -/
def initMultipartUpload (fs : Fs) (root bucket key uploadID : String) : Fs :=
  fsWrite fs (joinPath [multipartDir root bucket uploadID, "metadata"])
    (strBytes ("bucket=" ++ bucket ++ "\nkey=" ++ key ++ "\n"))

/-- Model of `LocalStorage.UploadPart`: require the sidecar, write the part file, and
return the MD5 of the part bytes as its ETag. -/
def uploadPart (fs : Fs) (root bucket uploadID : String) (partNumber : Int) (body : List Nat) :
    Except String (String × Fs) :=
  let mpDir := multipartDir root bucket uploadID
  if ¬ dirExists fs mpDir then .error "multipart upload not found"
  else
    .ok (md5Hex body, fsWrite fs (joinPath [mpDir, partFileName partNumber]) body)

/-- The concatenation loop of `CompleteMultipartUpload`: parts are appended
to the (already truncated) final object in the order listed; a missing part
file aborts with an open error. The listed ETags are never consulted. -/
def completeLoop (mpDir objPath : String) : Fs → List Part → Except String Fs
  | fs, [] => .ok fs
  | fs, p :: rest =>
    match fsRead fs (joinPath [mpDir, partFileName p.partNumber]) with
    | none => .error ("failed to open part " ++ toString p.partNumber)
    | some bytes => completeLoop mpDir objPath (fsAppend fs objPath bytes) rest

/-- Model of `LocalStorage.CompleteMultipartUpload`: require the sidecar, truncate
the final object path, concatenate the listed parts in order, then remove
the sidecar. -/
def completeMultipartUpload (fs : Fs) (root bucket key uploadID : String) (parts : List Part) :
    Except String Fs :=
  let mpDir := multipartDir root bucket uploadID
  if ¬ dirExists fs mpDir then .error "multipart upload not found"
  else
    let objPath := objectPath root bucket key
    (completeLoop mpDir objPath (fsWrite fs objPath []) parts).map
      (fun fs2 => fsRemoveAll fs2 mpDir)

/-! ## Go `net/url` query handling, as the verifier uses it -/

/-- Value of a hexadecimal digit character. -/
def hexVal (c : Char) : Option Nat :=
  if '0' ≤ c ∧ c ≤ '9' then some (c.toNat - 48)
  else if 'a' ≤ c ∧ c ≤ 'f' then some (c.toNat - 87)
  else if 'A' ≤ c ∧ c ≤ 'F' then some (c.toNat - 55)
  else none

/-- Model of `url.QueryUnescape`: `%XX` decodes to the byte, `+` to a space; a
malformed escape is an error. -/
def queryUnescape : List Char → Option (List Char)
  | [] => some []
  | '%' :: h1 :: h2 :: rest =>
    match hexVal h1, hexVal h2 with
    | some a, some b => (queryUnescape rest).map (fun r => Char.ofNat (16 * a + b) :: r)
    | _, _ => none
  | '%' :: _ => none
  | '+' :: rest => (queryUnescape rest).map (fun r => ' ' :: r)
  | c :: rest => (queryUnescape rest).map (fun r => c :: r)

/-- Model of `url.QueryEscape`: alphanumerics and `-_.~` kept, space becomes `+`,
everything else `%XX` with uppercase hex. -/
def queryEscape (l : List Char) : List Char :=
  l.flatMap (fun c =>
    if ('A' ≤ c ∧ c ≤ 'Z') ∨ ('a' ≤ c ∧ c ≤ 'z') ∨ ('0' ≤ c ∧ c ≤ '9') ∨
       c = '-' ∨ c = '_' ∨ c = '.' ∨ c = '~' then [c]
    else if c = ' ' then ['+']
    else ['%', hexDigitUpper (c.toNat / 16 % 16), hexDigitUpper (c.toNat % 16)])

/-- Model of `url.ParseQuery`, keeping pairs in order of appearance: split on `&`,
skip empty segments and segments containing `;`, split each at the first
`=`, unescape key and value, and skip the pair on an unescape error. -/
def parseQuery : List Char → List (List Char × List Char)
  | raw =>
    (splitOnChar '&' raw).filterMap (fun seg =>
      if seg = [] ∨ seg.contains ';' then none
      else
        let kv := match splitFirst '=' seg with
          | some (k, v) => (k, v)
          | none => (seg, [])
        match queryUnescape kv.1, queryUnescape kv.2 with
        | some k, some v => some (k, v)
        | _, _ => none)

/-- Model of `url.Values.Get`: first value of the key, or the empty string. -/
def urlQueryGet (raw : String) (k : String) : String :=
  String.mk ((((parseQuery raw.data).find? (fun p => p.1 = k.data)).map (fun p => p.2)).getD [])

/-! ## Signature verifier (`internal/auth/auth.go`) -/

/-- The credential pair from the configuration. -/
structure Config where
  accessKey : String
  secretKey : String
deriving DecidableEq, Repr

/-- The request metadata the verifier reads. Header names are stored
lowercase; `Header.Get` is case-insensitive, modelled by lowercasing the
looked-up name. `path` is the decoded `r.URL.Path`; `rawQuery` the raw
query string; `host` the request authority `r.Host`. -/
structure Request where
  method : String
  path : String
  rawQuery : String
  host : String
  headers : List (String × String)
deriving DecidableEq, Repr

/-- Model of `r.Header.Get name`. -/
def headerGet (hs : List (String × String)) (name : String) : String :=
  ((hs.find? (fun h => h.1.data = lowerStr name.data)).map (fun h => h.2)).getD ""

/-- Model of `Authenticator.CreateCanonicalRequest`, exactly as coded: the decoded
path, the query re-encoded with `url.QueryEscape` (space becomes `+`) with
keys sorted and values in appearance order, signed headers lowercased and
trimmed with the host taken from the authority, and the client-declared
payload hash (default `UNSIGNED-PAYLOAD`). -/
def createCanonicalRequest (r : Request) (signedHeaders : String) : String :=
  let uri := if r.path = "" then "/" else r.path
  let query :=
    if r.rawQuery = "" then ""
    else
      let pairs := parseQuery r.rawQuery.data
      let keys := sortStrings (dedup (pairs.map (fun p => p.1)))
      let parts := keys.flatMap (fun k =>
        (pairs.filterMap (fun p => if p.1 = k then some p.2 else none)).map
          (fun v => queryEscape k ++ '=' :: queryEscape v))
      String.mk (List.intercalate ['&'] parts)
  let headerNames := sortStrings (splitOnChar ';' signedHeaders.data)
  let canonicalHeaders := headerNames.map (fun name =>
    let value := if lowerStr name = "host".data then r.host.data
                 else (headerGet r.headers (String.mk name)).data
    lowerStr name ++ ':' :: trimSpace value)
  let payloadHash0 := headerGet r.headers "X-Amz-Content-Sha256"
  let payloadHash := if payloadHash0 = "" then "UNSIGNED-PAYLOAD" else payloadHash0
  r.method ++ "\n" ++ uri ++ "\n" ++ query ++ "\n" ++
    String.mk (List.intercalate ['\n'] canonicalHeaders) ++ "\n\n" ++ signedHeaders ++ "\n" ++
    payloadHash

/-- Model of `Authenticator.getSigningKey`: the chained HMAC key derivation. -/
def getSigningKey (secret dateStamp region service : String) : List Nat :=
  let kDate := hmacSha256 (strBytes ("AWS4" ++ secret)) (strBytes dateStamp)
  let kRegion := hmacSha256 kDate (strBytes region)
  let kService := hmacSha256 kRegion (strBytes service)
  hmacSha256 kService (strBytes "aws4_request")

/-- Model of `Authenticator.calculateSignature`. -/
def calculateSignature (cfg : Config) (r : Request) (credential signedHeaders : String) : String :=
  let canonicalRequest := createCanonicalRequest r signedHeaders
  let credParts := splitOnChar '/' credential.data
  let dateStamp := String.mk (credParts.getD 1 [])
  let region := String.mk (credParts.getD 2 [])
  let service := String.mk (credParts.getD 3 [])
  let credentialScope := dateStamp ++ "/" ++ region ++ "/" ++ service ++ "/aws4_request"
  let amzDate := headerGet r.headers "X-Amz-Date"
  let stringToSign := "AWS4-HMAC-SHA256" ++ "\n" ++ amzDate ++ "\n" ++ credentialScope ++ "\n" ++
    sha256Hash canonicalRequest
  hmacHex (getSigningKey cfg.secretKey dateStamp region service) stringToSign

/-- The header-parsing half of `validateV4Signature`: split off the
algorithm token, then scan comma-separated components for `Credential=`,
`SignedHeaders=` and `Signature=`, returning the triple
`(credential, signedHeaders, signature)`. -/
def parseAuthHeader (authHeader : String) : Except String (String × String × String) :=
  match splitFirst ' ' authHeader.data with
  | none => .error "invalid authorization header format"
  | some (_, components) =>
    let acc := (splitOnChar ',' components).foldl
      (fun (acc : List Char × List Char × List Char) comp =>
        let c := trimSpace comp
        if "Credential=".data.isPrefixOf c then (c.drop 11, acc.2.1, acc.2.2)
        else if "Signature=".data.isPrefixOf c then (acc.1, acc.2.1, c.drop 10)
        else if "SignedHeaders=".data.isPrefixOf c then (acc.1, c.drop 14, acc.2.2)
        else acc)
      ([], [], [])
    if acc.1 = [] ∨ acc.2.2 = [] ∨ acc.2.1 = [] then
      .error "missing required authorization components"
    else
      .ok (String.mk acc.1, String.mk acc.2.1, String.mk acc.2.2)

/-- Model of `Authenticator.validateV4Signature`: parse the header, check the
credential shape and access key, recompute the signature and compare with
plain string equality. -/
def validateV4Signature (cfg : Config) (r : Request) (authHeader : String) :
    Except String Unit :=
  match parseAuthHeader authHeader with
  | .error e => .error e
  | .ok (credential, signedHeaders, signature) =>
    let credParts := splitOnChar '/' credential.data
    if credParts.length ≠ 5 then .error "invalid credential format"
    else if String.mk (credParts.getD 0 []) ≠ cfg.accessKey then .error "invalid access key"
    else if signature ≠ calculateSignature cfg r credential signedHeaders then
      .error "signature mismatch"
    else .ok ()

/-! ## The spec's canonicalization (§4.1), for comparison with the code's

These definitions follow the specification text, not the source: the
canonical URI is the path RFC 3986 percent-encoded except `/`, and the
canonical query percent-encodes each key and value per RFC 3986 (space is
`%20`, never `+`), sorted by encoded key with ties broken by encoded
value. -/

/-- RFC 3986 unreserved characters. -/
def isUnreserved (c : Char) : Bool :=
  ('A' ≤ c ∧ c ≤ 'Z') ∨ ('a' ≤ c ∧ c ≤ 'z') ∨ ('0' ≤ c ∧ c ≤ '9') ∨
  c = '-' ∨ c = '.' ∨ c = '_' ∨ c = '~'

/-- RFC 3986 percent-encoding, optionally leaving `/` intact. -/
def percentEncode (keepSlash : Bool) (l : List Char) : List Char :=
  l.flatMap (fun c =>
    if isUnreserved c ∨ (keepSlash ∧ c = '/') then [c]
    else ['%', hexDigitUpper (c.toNat / 16 % 16), hexDigitUpper (c.toNat % 16)])

/-- Order on encoded `(key, value)` pairs: by key, ties by value. -/
def pairLe (a b : List Char × List Char) : Bool :=
  if a.1 = b.1 then strLeChars a.2 b.2 else strLeChars a.1 b.1

/-- Insertion sort of encoded query pairs. -/
def sortPairsInsert (x : List Char × List Char) :
    List (List Char × List Char) → List (List Char × List Char)
  | [] => [x]
  | y :: ys => if pairLe x y then x :: y :: ys else y :: sortPairsInsert x ys

/-- Sort encoded query pairs by key, ties by value. -/
def sortPairs (l : List (List Char × List Char)) : List (List Char × List Char) :=
  l.foldr sortPairsInsert []

/-- The spec's canonical query string (§4.1 item 3). -/
def specCanonicalQuery (raw : String) : String :=
  if raw = "" then ""
  else
    let pairs := (parseQuery raw.data).map
      (fun p => (percentEncode false p.1, percentEncode false p.2))
    String.mk (List.intercalate ['&'] ((sortPairs pairs).map (fun p => p.1 ++ '=' :: p.2)))

/-- Collapse runs of whitespace to a single space; the flag records a
pending, not-yet-emitted run (§4.1 item 4, applied to trimmed values). -/
def collapseWsAux (pendingSpace : Bool) : List Char → List Char
  | [] => []
  | c :: rest =>
    if isSpaceGo c then collapseWsAux true rest
    else (if pendingSpace then [' ', c] else [c]) ++ collapseWsAux false rest

/-- Collapse inner runs of whitespace to a single space (§4.1 item 4). -/
def collapseWs (l : List Char) : List Char := collapseWsAux false l

/-- The spec's canonical request (§4.1): same newline layout as the code,
but with the RFC 3986 canonical URI and canonical query. -/
def specCanonicalRequest (r : Request) (signedHeaders : String) : String :=
  let uri := if r.path = "" then "/" else String.mk (percentEncode true r.path.data)
  let query := specCanonicalQuery r.rawQuery
  let headerNames := sortStrings ((splitOnChar ';' signedHeaders.data).map lowerStr)
  let canonicalHeaders := headerNames.map (fun name =>
    let value := if name = "host".data then r.host.data
                 else (headerGet r.headers (String.mk name)).data
    name ++ ':' :: collapseWs (trimSpace value))
  let payloadHash0 := headerGet r.headers "X-Amz-Content-Sha256"
  let payloadHash := if payloadHash0 = "" then "UNSIGNED-PAYLOAD" else payloadHash0
  r.method ++ "\n" ++ uri ++ "\n" ++ query ++ "\n" ++
    String.mk (List.intercalate ['\n'] canonicalHeaders) ++ "\n\n" ++ signedHeaders ++ "\n" ++
    payloadHash

/-- The signature the spec's §4.1 prescribes: the same string-to-sign and
signing-key derivation, but over the spec's canonical request. -/
def specSignature (cfg : Config) (r : Request) (credential signedHeaders : String) : String :=
  let credParts := splitOnChar '/' credential.data
  let dateStamp := String.mk (credParts.getD 1 [])
  let region := String.mk (credParts.getD 2 [])
  let service := String.mk (credParts.getD 3 [])
  let credentialScope := dateStamp ++ "/" ++ region ++ "/" ++ service ++ "/aws4_request"
  let amzDate := headerGet r.headers "X-Amz-Date"
  let stringToSign := "AWS4-HMAC-SHA256" ++ "\n" ++ amzDate ++ "\n" ++ credentialScope ++ "\n" ++
    sha256Hash (specCanonicalRequest r signedHeaders)
  hmacHex (getSigningKey cfg.secretKey dateStamp region service) stringToSign

/-- A well-formed `Authorization` header carrying the given components. -/
def authHeaderFor (credential signedHeaders signature : String) : String :=
  "AWS4-HMAC-SHA256 Credential=" ++ credential ++ ", SignedHeaders=" ++ signedHeaders ++
    ", Signature=" ++ signature

/-! ## Request dispatcher (`internal/server`, object routes) -/

/-- The operation an object-level route resolves to. -/
inductive S3Op
  | getObjectOp
  | putObjectOp
  | headObjectOp
  | deleteObjectOp
  | uploadPartOp
  | completeMultipartOp
  | abortMultipartOp
  | initiateMultipartOp
  | methodNotAllowed
deriving DecidableEq, Repr

/-- The `/{bucket}/{object}` dispatch: GET and HEAD go straight to the
object handlers; PUT checks `uploadId` then `partNumber`; DELETE checks
`uploadId`; POST checks only `uploads` and otherwise answers 405. -/
def routeObject (method : String) (rawQuery : String) : S3Op :=
  if method = "GET" then .getObjectOp
  else if method = "PUT" then
    if urlQueryGet rawQuery "uploadId" ≠ "" then
      if urlQueryGet rawQuery "partNumber" ≠ "" then .uploadPartOp
      else .completeMultipartOp
    else .putObjectOp
  else if method = "DELETE" then
    if urlQueryGet rawQuery "uploadId" ≠ "" then .abortMultipartOp
    else .deleteObjectOp
  else if method = "HEAD" then .headObjectOp
  else if method = "POST" then
    if urlQueryGet rawQuery "uploads" ≠ "" then .initiateMultipartOp
    else .methodNotAllowed
  else .methodNotAllowed

/-! ## HTTP handler fragments (`internal/handlers`) -/

/-- Model of `Handler.DeleteObject`: 400 on empty names, 500 on any storage error
(including a missing key), 204 on success. -/
def deleteObjectHandler (fs : Fs) (root bucket key : String) : Nat × Fs :=
  if bucket = "" ∨ key = "" then (400, fs)
  else
    match deleteObject fs root bucket key with
    | .error _ => (500, fs)
    | .ok fs2 => (204, fs2)

/-! ## Statement helpers and concrete example inputs -/

deriving instance DecidableEq for Except

/-- The error message of a failed computation, if any. -/
def exceptErr {α : Type} : Except String α → Option String
  | .error e => some e
  | .ok _ => none

/-- Containment: `p` stays under the storage root `root`, being the root
itself or lying below it. -/
def underRoot (root p : String) : Bool :=
  p = root || (root ++ "/").data.isPrefixOf p.data

/-- Example credentials for the signature counterexample. -/
def cfgEx : Config := ⟨"AKID", "secretkey"⟩

/-- An ordinary GET request whose query value contains an encoded space —
the point where the code's canonicalization (`+`) and the spec's (`%20`)
part ways. -/
def reqEx : Request :=
  { method := "GET", path := "/bucket/obj", rawQuery := "a=b%20c", host := "localhost:9000",
    headers := [("host", "localhost:9000"), ("x-amz-date", "20230101T000000Z"),
                ("x-amz-content-sha256", "UNSIGNED-PAYLOAD")] }

/-- The credential scope matching `cfgEx`. -/
def credEx : String := "AKID/20230101/us-east-1/s3/aws4_request"

/-- The signed-headers list of `reqEx`. -/
def shEx : String := "host;x-amz-content-sha256;x-amz-date"

/-- A one-object filesystem for the range-read witness. -/
def fsEx : Fs := putObject [] "data" "b" "k" [10, 20, 30]

/-- A multipart state with upload `u1` holding part 1 with bytes
`[1, 2, 3]`, built through the storage operations themselves. -/
def fs9 : Fs :=
  match uploadPart (initMultipartUpload [] "data" "b" "obj" "u1") "data" "b" "u1" 1 [1, 2, 3] with
  | .ok (_, fs) => fs
  | .error _ => []

/-- A bucket holding a top-level object `x` and a nested object `a/y`. -/
def fs10 : Fs := putObject (putObject [] "data" "b" "x" [1]) "data" "b" "a/y" [2, 3]

/-! # Theorems -/

/-! ## Filesystem lemmas -/

theorem find?_filter_of_keep {α : Type} (l : List α) (f g : α → Bool)
    (h : ∀ a, f a = true → g a = true) :
    (l.filter g).find? f = l.find? f := by
  induction l with
  | nil => rfl
  | cons a as ih =>
    by_cases hf : f a = true
    · rw [List.filter_cons_of_pos (h a hf), List.find?_cons_of_pos _ hf,
        List.find?_cons_of_pos _ hf]
    · rcases hg : g a with _ | _
      · rw [List.filter_cons_of_neg (by simp [hg]), List.find?_cons_of_neg _ (by simp_all), ih]
      · rw [List.filter_cons_of_pos hg, List.find?_cons_of_neg _ (by simp_all),
          List.find?_cons_of_neg _ (by simp_all), ih]

theorem fsRead_fsWrite (fs : Fs) (p : String) (c : List Nat) :
    fsRead (fsWrite fs p c) p = some c := by
  simp [fsRead, fsWrite]

theorem fsRead_fsWrite_ne (fs : Fs) (p q : String) (c : List Nat) (h : q ≠ p) :
    fsRead (fsWrite fs p c) q = fsRead fs q := by
  have hne : (decide ((p, c).1 = q)) = false := by
    simp only [decide_eq_false_iff_not]
    exact fun hh => h hh.symm
  unfold fsRead fsWrite
  rw [List.find?_cons, hne, find?_filter_of_keep _ _ _ (fun a ha => by simp_all)]

theorem fsRead_fsRemoveAll_of_outside (fs : Fs) (d p : String)
    (h1 : (d ++ "/").data.isPrefixOf p.data = false) (h2 : p ≠ d) :
    fsRead (fsRemoveAll fs d) p = fsRead fs p := by
  unfold fsRead fsRemoveAll
  rw [find?_filter_of_keep]
  intro a ha
  simp only [decide_eq_true_eq] at ha
  subst ha
  simp [h2]
  intro hcon
  have h3 : (d ++ "/").data.isPrefixOf a.1.data = true := by
    rw [List.isPrefixOf_iff_prefix, String.data_append]
    exact hcon
  rw [h1] at h3
  exact Bool.false_ne_true h3

theorem le32_length (n : Nat) : (le32 n).length = 4 := rfl

theorem md5_length (l : List Nat) : (md5 l).length = 16 := by
  unfold md5
  rcases (chunks64 (md5Pad l).length (md5Pad l)).foldl md5Block
      (0x67452301, 0xefcdab89, 0x98badcfe, 0x10325476) with ⟨a, b, c, d⟩
  simp [le32]

theorem bytesToHex_length (l : List Nat) : (bytesToHex l).length = 2 * l.length := by
  induction l with
  | nil => rfl
  | cons a as ih => simp [bytesToHex] at ih ⊢; omega

theorem md5Hex_length (l : List Nat) : (md5Hex l).length = 32 := by
  simp [md5Hex, String.length, bytesToHex_length, md5_length]

/-- Regression: the MD5 embedding on a known vector. -/
theorem md5_known_vector : md5Hex (strBytes "abc") = "900150983cd24fb0d6963f7d28e17f72" := by
  decide

/-! ## C1 — path containment and `InvalidKey` -/

/-- C1 counterexample: for bucket `b` and key `../../evil` the storage
engine's path `objectPath` normalizes to `evil`, outside the root `data`,
and `PutObject` performs the write at that escaped path — nothing is
rejected (no `InvalidKey` exists in the code). -/
theorem C1_counterexample :
    underRoot "data" (objectPath "data" "b" "../../evil") = false ∧
    fsRead (putObject [] "data" "b" "../../evil" [7]) "evil" = some [7] := by
  constructor
  · decide
  · decide

/-- C1 amended: paths are joined and normalized (`filepath.Join`), but no
containment check follows: a key whose `..` components climb above the
root yields a path outside the root, and `PutObject` writes there — the
engine defines no `InvalidKey` rejection. Shown for the family of bodies
and starting filesystems at the escaping key `../../evil`. -/
theorem C1_amended_no_containment_check (fs : Fs) (body : List Nat) :
    objectPath "data" "b" "../../evil" = "evil" ∧
    underRoot "data" (objectPath "data" "b" "../../evil") = false ∧
    fsRead (putObject fs "data" "b" "../../evil" body) "evil" = some body := by
  refine ⟨by decide, by decide, ?_⟩
  have h : objectPath "data" "b" "../../evil" = "evil" := by decide
  rw [putObject, h, fsRead_fsWrite]

/-! ## C2 — ETag contents -/

/-- C2 counterexample: after `PutObject` of body `"hi"` (bytes 104, 105) at
key `k`, `GetObject` reports the MD5 of the KEY `k` as ETag, which differs
from the double-quoted MD5 of the stored bytes that the claim requires. -/
theorem C2_counterexample :
    ((getObject (putObject [] "data" "b" "k" [104, 105]) "data" "b" "k" "").toOption.map
      (fun r => r.2.etag)) = some (md5Hex (strBytes "k")) ∧
    md5Hex (strBytes "k") ≠ "\"" ++ md5Hex [104, 105] ++ "\"" := by
  constructor
  · decide
  · decide

theorem listLoop_etag_md5_of_key (fs : Fs) (dir pre : String) (maxKeys : Nat) :
    ∀ (entries : List (List Char × Bool)) (count : Nat) (acc : List ObjectInfo),
    (∀ o ∈ acc, o.etag = md5Hex (strBytes o.key)) →
    ∀ o ∈ (listLoop fs dir pre maxKeys entries count acc).1,
      o.etag = md5Hex (strBytes o.key) := by
  intro entries
  induction entries with
  | nil =>
    intro count acc hacc o ho
    rw [listLoop] at ho
    exact hacc o (List.mem_reverse.mp ho)
  | cons e rest ih =>
    intro count acc hacc o ho
    rcases e with ⟨name, isDir⟩
    rw [listLoop] at ho
    by_cases h1 : count ≥ maxKeys
    · rw [if_pos h1] at ho
      exact hacc o (List.mem_reverse.mp ho)
    · rw [if_neg h1] at ho
      by_cases h2 : isDir = true
      · rw [if_pos h2] at ho
        exact ih count acc hacc o ho
      · rw [if_neg h2] at ho
        by_cases h3 : pre ≠ "" ∧ ¬ (pre.data.isPrefixOf name = true)
        · rw [if_pos h3] at ho
          exact ih count acc hacc o ho
        · rw [if_neg h3] at ho
          refine ih (count + 1) _ ?_ o ho
          intro o2 ho2
          rcases List.mem_cons.mp ho2 with h4 | h4
          · subst h4
            rfl
          · exact hacc o2 h4

/-- C2 amended: the ETag the server reports for a stored object — through
`GetObject`, `HeadObject`, and for every entry `ListObjects` returns over
the stored state — is the lowercase hex MD5 digest of the object's KEY,
not of its bytes, and it is not wrapped in quotes (it is exactly 32 hex
characters). -/
theorem C2_amended_etag_is_md5_of_key (fs : Fs) (root bucket key : String) (body : List Nat) :
    ((getObject (putObject fs root bucket key body) root bucket key "").toOption.map
      (fun r => r.2.etag)) = some (md5Hex (strBytes key)) ∧
    ((headObject (putObject fs root bucket key body) root bucket key).toOption.map
      (fun i => i.etag)) = some (md5Hex (strBytes key)) ∧
    (md5Hex (strBytes key)).length = 32 ∧
    (∀ (pre : String) (maxKeys : Nat) (o : ObjectInfo),
      o ∈ (listObjects (putObject fs root bucket key body) root bucket pre maxKeys).1 →
      o.etag = md5Hex (strBytes o.key) ∧ o.etag.length = 32) := by
  refine ⟨?_, ?_, md5Hex_length _, ?_⟩
  · rw [getObject, putObject, fsRead_fsWrite]
    rfl
  · rw [headObject, putObject, fsRead_fsWrite]
    rfl
  · intro pre maxKeys o ho
    have he : o.etag = md5Hex (strBytes o.key) := by
      rw [listObjects] at ho
      exact listLoop_etag_md5_of_key _ _ _ _ _ 0 [] (by simp) o ho
    exact ⟨he, by rw [he]; exact md5Hex_length _⟩

/-! ## C3 — put/get round trip -/

/-- C3: for every starting filesystem, bucket, key and body, `PutObject`
followed by `GetObject` (no range header, no intervening mutation) returns
exactly the stored bytes and reports their length as the size. -/
theorem C3_put_get_roundtrip (fs : Fs) (root bucket key : String) (body : List Nat) :
    ((getObject (putObject fs root bucket key body) root bucket key "").toOption.map
      (fun r => (r.1, r.2.size))) = some (body, body.length) := by
  rw [getObject, putObject, fsRead_fsWrite]
  rfl

/-! ## C7 — delete of a missing key -/

/-- C7 counterexample: deleting a non-existent key is an error in the
storage engine (`os.Remove` fails), and the HTTP handler answers 500, not
204. -/
theorem C7_counterexample :
    exceptErr (deleteObject [] "data" "b" "k") = some "no such file or directory" ∧
    (deleteObjectHandler [] "data" "b" "k").1 = 500 ∧ (500 : Nat) ≠ 204 := by
  refine ⟨by decide, by decide, by decide⟩

/-- C7 amended: `DeleteObject` passes the `os.Remove` failure through when
no object exists at the key — there is no NotFound-to-success mapping —
and the HTTP layer translates the error to a 500 response. -/
theorem C7_amended_delete_missing_errors (fs : Fs) (root bucket key : String)
    (hb : bucket ≠ "") (hk : key ≠ "")
    (h : fsRead fs (objectPath root bucket key) = none) :
    deleteObject fs root bucket key = .error "no such file or directory" ∧
    (deleteObjectHandler fs root bucket key).1 = 500 := by
  have hd : deleteObject fs root bucket key = .error "no such file or directory" := by
    rw [deleteObject, h]
    simp
  refine ⟨hd, ?_⟩
  rw [deleteObjectHandler, if_neg (by simp [hb, hk]), hd]

/-- C7 witness: the amended statement at the empty filesystem. -/
theorem C7_amended_witness :
    deleteObject [] "data" "b" "k" = .error "no such file or directory" ∧
    (deleteObjectHandler [] "data" "b" "k").1 = 500 :=
  C7_amended_delete_missing_errors [] "data" "b" "k" (by decide) (by decide) (by decide)

/-! ## C6 — dispatch of POST with `uploadId` -/

/-- C6 counterexample: a POST to an object route whose query carries
`uploadId` (and no `uploads`) is answered 405, not dispatched to
CompleteMultipartUpload. -/
theorem C6_counterexample :
    routeObject "POST" "uploadId=123" = S3Op.methodNotAllowed ∧
    S3Op.methodNotAllowed ≠ S3Op.completeMultipartOp := by
  constructor
  · decide
  · decide

/-- C6 amended: on the object route, POST dispatches only on `uploads`
(else 405); CompleteMultipartUpload is reached through PUT with `uploadId`
present and `partNumber` absent. -/
theorem C6_amended_complete_is_put (q : String)
    (hu : urlQueryGet q "uploads" = "")
    (hid : urlQueryGet q "uploadId" ≠ "")
    (hpn : urlQueryGet q "partNumber" = "") :
    routeObject "POST" q = S3Op.methodNotAllowed ∧
    routeObject "PUT" q = S3Op.completeMultipartOp := by
  constructor
  · simp [routeObject, hu]
  · simp [routeObject, hid, hpn]

/-- C6 witness: the amended statement at the query string `uploadId=123`. -/
theorem C6_amended_witness :
    routeObject "POST" "uploadId=123" = S3Op.methodNotAllowed ∧
    routeObject "PUT" "uploadId=123" = S3Op.completeMultipartOp :=
  C6_amended_complete_is_put "uploadId=123" (by decide) (by decide) (by decide)

/-! ## C8 — `bytes=-n` suffix ranges -/

theorem isPrefixOf_append_self {α : Type} [BEq α] [LawfulBEq α] (a b : List α) :
    List.isPrefixOf a (a ++ b) = true := by
  induction a with
  | nil => simp [List.isPrefixOf]
  | cons x xs ih => simp [List.isPrefixOf, ih]

theorem splitOnChar_ne_nil (c : Char) (l : List Char) : splitOnChar c l ≠ [] := by
  cases l with
  | nil => simp [splitOnChar]
  | cons x xs =>
    rw [splitOnChar]
    rcases h : splitOnChar c xs with _ | ⟨y, ys⟩
    · simp
    · by_cases hx : x = c <;> simp [hx]

theorem splitOnChar_cons_sep (c : Char) (l : List Char) :
    splitOnChar c (c :: l) = [] :: splitOnChar c l := by
  rw [splitOnChar]
  rcases h : splitOnChar c l with _ | ⟨y, ys⟩
  · exact absurd h (splitOnChar_ne_nil c l)
  · simp

theorem splitOnChar_no_sep (c : Char) (l : List Char) (h : l.all (fun x => x ≠ c) = true) :
    splitOnChar c l = [l] := by
  induction l with
  | nil => rfl
  | cons x xs ih =>
    simp only [List.all_cons, Bool.and_eq_true, decide_eq_true_eq] at h
    rw [splitOnChar, ih h.2]
    simp [h.1]

/-- C8 counterexample: the object at `k` holds bytes `[10, 20, 30]`;
`Range: bytes=-2` returns all three bytes with size 3, not the final two
bytes with size 2 that a suffix-length range requires. -/
theorem C8_counterexample :
    ((getObject fsEx "data" "b" "k" "bytes=-2").toOption.map
      (fun r => (r.1, r.2.size))) = some ([10, 20, 30], 3) ∧
    (some ([10, 20, 30], 3) : Option (List Nat × Nat)) ≠ some ([20, 30], 2) := by
  constructor
  · decide
  · decide

/-- C8 amended: the code parses `bytes=-n` as an empty start (taken as 0)
and end `n`: for `n < size` it returns the FIRST `n + 1` bytes with size
`n + 1`; for `n ≥ size` the range is rejected as invalid. -/
theorem C8_amended_dash_n_is_initial_segment (fs : Fs) (root bucket key : String)
    (content : List Nat) (n : Nat)
    (hc : fsRead fs (objectPath root bucket key) = some content)
    (hp : parseIntGo (toString n).data = some (n : Int))
    (hdash : (toString n).data.all (fun c => c ≠ '-') = true) :
    (n < content.length →
      ((getObject fs root bucket key ("bytes=-" ++ toString n)).toOption.map
        (fun r => (r.1, r.2.size))) = some (content.take (n + 1), n + 1)) ∧
    (content.length ≤ n →
      (getObject fs root bucket key ("bytes=-" ++ toString n)).toOption = none) := by
  have htn : (toString n).data ≠ [] := by
    intro hh
    rw [hh] at hp
    simp [parseIntGo] at hp
  have hdata : ("bytes=-" ++ toString n).data = "bytes=".data ++ '-' :: (toString n).data := by
    rw [String.data_append]
    rfl
  have hne : ("bytes=-" ++ toString n) ≠ "" := by
    intro hh
    have h2 : ("bytes=-" ++ toString n).data = [] := by rw [hh]
    rw [hdata] at h2
    simp at h2
  have hsplit : splitOnChar '-' (("bytes=-" ++ toString n).data.drop 6) =
      [[], (toString n).data] := by
    rw [hdata]
    have h6 : ("bytes=".data ++ '-' :: (toString n).data).drop 6 = '-' :: (toString n).data := by
      have hl : ("bytes=".data).length = 6 := rfl
      rw [← hl, List.drop_left]
    rw [h6, splitOnChar_cons_sep, splitOnChar_no_sep _ _ hdash]
  have hpre : List.isPrefixOf "bytes=".data ("bytes=-" ++ toString n).data = true := by
    rw [hdata]
    exact isPrefixOf_append_self _ _
  have hgr : getObject fs root bucket key ("bytes=-" ++ toString n) =
      handleRangeRequest content
        { key := key, size := content.length, etag := md5Hex (strBytes key),
          contentType := "application/octet-stream" } ("bytes=-" ++ toString n) := by
    rw [getObject, hc]
    exact if_pos hne
  rw [hgr, handleRangeRequest, if_neg (by simp [hpre])]
  simp only [hsplit, ne_eq, htn, not_false_eq_true, if_true, hp, not_true, if_false]
  constructor
  · intro h1
    have hcond : ¬ ((0 : Int) < 0 ∨ (n : Int) ≥ (content.length : Int) ∨ (0 : Int) > (n : Int)) := by
      omega
    rw [if_neg hcond]
    have ht : ((n : Int) - 0 + 1).toNat = n + 1 := by omega
    have hz : ((0 : Int).toNat) = 0 := rfl
    simp only [ht, hz]
    rfl
  · intro h2
    have hcond : ((0 : Int) < 0 ∨ (n : Int) ≥ (content.length : Int) ∨ (0 : Int) > (n : Int)) := by
      omega
    rw [if_pos hcond]
    rfl

/-- C8 witness: the amended statement on a three-byte object with `n = 1`:
`bytes=-1` yields the first two bytes, size 2. -/
theorem C8_amended_witness :
    ((getObject fsEx "data" "b" "k" "bytes=-1").toOption.map
      (fun r => (r.1, r.2.size))) = some ([10, 20], 2) :=
  (C8_amended_dash_n_is_initial_segment fsEx "data" "b" "k" [10, 20, 30] 1
    (by decide) (by decide) (by decide)).1 (by decide)


/-! ## C9 — CompleteMultipartUpload part validation -/

/-- C9 counterexample: with part 1 stored as bytes `[1, 2, 3]`, completing
with the listed pair `(1, "wrong")` — an ETag that is not the MD5 of the
stored part — succeeds and assembles the object; the listed ETag is never
checked. -/
theorem C9_counterexample :
    ((completeMultipartUpload fs9 "data" "b" "obj" "u1" [⟨1, "wrong"⟩]).toOption.bind
      (fun fs2 => fsRead fs2 (objectPath "data" "b" "obj"))) = some [1, 2, 3] ∧
    "wrong" ≠ md5Hex [1, 2, 3] := by
  constructor
  · decide
  · decide

/-- C9 amended: `CompleteMultipartUpload` checks only that each listed part
NUMBER has a stored part file: with a stored part it succeeds for every
listed ETag (the ETags are never compared against the stored bytes), and a
listed number with no stored file fails with a generic open error — not
`InvalidPart`. -/
theorem C9_amended_etags_unchecked (fs : Fs) (root bucket key uploadID : String)
    (p q : Part) (body : List Nat)
    (hdir : dirExists fs (multipartDir root bucket uploadID) = true)
    (hpo : joinPath [multipartDir root bucket uploadID, partFileName p.partNumber] ≠
      objectPath root bucket key)
    (hpart : fsRead fs (joinPath [multipartDir root bucket uploadID, partFileName p.partNumber]) =
      some body)
    (hqo : joinPath [multipartDir root bucket uploadID, partFileName q.partNumber] ≠
      objectPath root bucket key)
    (hmiss : fsRead fs (joinPath [multipartDir root bucket uploadID, partFileName q.partNumber]) =
      none)
    (hout1 : (multipartDir root bucket uploadID ++ "/").data.isPrefixOf
      (objectPath root bucket key).data = false)
    (hout2 : objectPath root bucket key ≠ multipartDir root bucket uploadID) :
    ((completeMultipartUpload fs root bucket key uploadID [p]).toOption.bind
      (fun fs2 => fsRead fs2 (objectPath root bucket key))) = some body ∧
    completeMultipartUpload fs root bucket key uploadID [q] =
      .error ("failed to open part " ++ toString q.partNumber) := by
  constructor
  · have hloop : completeLoop (multipartDir root bucket uploadID) (objectPath root bucket key)
        (fsWrite fs (objectPath root bucket key) []) [p] =
        .ok (fsWrite (fsWrite fs (objectPath root bucket key) [])
          (objectPath root bucket key) body) := by
      simp only [completeLoop, fsRead_fsWrite_ne _ _ _ _ hpo, hpart, fsAppend,
        fsRead_fsWrite, Option.getD_some, List.nil_append]
    simp only [completeMultipartUpload, hdir, eq_self_iff_true, not_true, if_false, hloop,
      Except.map, Except.toOption, Option.bind]
    rw [fsRead_fsRemoveAll_of_outside _ _ _ hout1 hout2, fsRead_fsWrite]
  · simp only [completeMultipartUpload, hdir, eq_self_iff_true, not_true, if_false,
      completeLoop, fsRead_fsWrite_ne _ _ _ _ hqo, hmiss, Except.map]

/-- C9 witness: the amended statement on the concrete multipart state
`fs9`, with listed pairs `(1, "totally-wrong")` and `(2, "whatever")`. -/
theorem C9_amended_witness :
    ((completeMultipartUpload fs9 "data" "b" "obj" "u1"
      [⟨1, "totally-wrong"⟩]).toOption.bind
        (fun fs2 => fsRead fs2 (objectPath "data" "b" "obj"))) = some [1, 2, 3] ∧
    completeMultipartUpload fs9 "data" "b" "obj" "u1" [⟨2, "whatever"⟩] =
      .error ("failed to open part " ++ toString (2 : Int)) :=
  C9_amended_etags_unchecked fs9 "data" "b" "obj" "u1" ⟨1, "totally-wrong"⟩ ⟨2, "whatever"⟩
    [1, 2, 3] (by decide) (by decide) (by decide) (by decide) (by decide) (by decide) (by decide)

/-! ## C10 — keys containing a slash are never listed -/

theorem mem_sortInsert {x y : List Char} {l : List (List Char)}
    (h : y ∈ sortInsert x l) : y = x ∨ y ∈ l := by
  induction l with
  | nil => simpa [sortInsert] using h
  | cons a as ih =>
    rw [sortInsert] at h
    by_cases hc : strLeChars x a = true
    · rw [if_pos hc] at h
      rcases List.mem_cons.mp h with h1 | h1
      · exact Or.inl h1
      · exact Or.inr h1
    · rw [if_neg hc] at h
      rcases List.mem_cons.mp h with h1 | h1
      · exact Or.inr (List.mem_cons.mpr (Or.inl h1))
      · rcases ih h1 with h2 | h2
        · exact Or.inl h2
        · exact Or.inr (List.mem_cons.mpr (Or.inr h2))

theorem mem_sortStrings {y : List Char} {l : List (List Char)}
    (h : y ∈ sortStrings l) : y ∈ l := by
  induction l with
  | nil => simp [sortStrings] at h
  | cons a as ih =>
    rcases mem_sortInsert h with h1 | h1
    · exact h1 ▸ List.mem_cons_self a as
    · exact List.mem_cons.mpr (Or.inr (ih h1))

theorem mem_dedup {y : List Char} {l : List (List Char)}
    (h : y ∈ dedup l) : y ∈ l := by
  induction l with
  | nil => simp [dedup] at h
  | cons a as ih =>
    rw [dedup] at h
    rcases List.mem_cons.mp h with h1 | h1
    · exact h1 ▸ List.mem_cons_self a as
    · exact List.mem_cons.mpr (Or.inr (ih (List.mem_of_mem_filter h1)))

theorem firstSeg_no_slash (l : List Char) : '/' ∉ firstSeg l := by
  intro h
  have := List.mem_takeWhile_imp h
  simp at this

theorem dirEntries_no_slash (fs : Fs) (d : String) :
    ∀ e ∈ dirEntries fs d, '/' ∉ e.1 := by
  intro e he
  rw [dirEntries] at he
  rcases List.mem_map.mp he with ⟨name, hname, rfl⟩
  rcases List.mem_map.mp (mem_dedup (mem_sortStrings hname)) with ⟨rp, _, rfl⟩
  exact firstSeg_no_slash rp

theorem listLoop_key_no_slash (fs : Fs) (dir pre : String) (maxKeys : Nat) :
    ∀ (entries : List (List Char × Bool)) (count : Nat) (acc : List ObjectInfo),
    (∀ e ∈ entries, '/' ∉ e.1) → (∀ o ∈ acc, '/' ∉ o.key.data) →
    ∀ o ∈ (listLoop fs dir pre maxKeys entries count acc).1, '/' ∉ o.key.data := by
  intro entries
  induction entries with
  | nil =>
    intro count acc _ hacc o ho
    rw [listLoop] at ho
    exact hacc o (List.mem_reverse.mp ho)
  | cons e rest ih =>
    intro count acc hent hacc o ho
    rcases e with ⟨name, isDir⟩
    rw [listLoop] at ho
    by_cases h1 : count ≥ maxKeys
    · rw [if_pos h1] at ho
      exact hacc o (List.mem_reverse.mp ho)
    · rw [if_neg h1] at ho
      have hrest : ∀ e ∈ rest, '/' ∉ e.1 :=
        fun e he => hent e (List.mem_cons.mpr (Or.inr he))
      by_cases h2 : isDir = true
      · rw [if_pos h2] at ho
        exact ih count acc hrest hacc o ho
      · rw [if_neg h2] at ho
        by_cases h3 : pre ≠ "" ∧ ¬ (pre.data.isPrefixOf name = true)
        · rw [if_pos h3] at ho
          exact ih count acc hrest hacc o ho
        · rw [if_neg h3] at ho
          refine ih (count + 1) _ hrest ?_ o ho
          intro o2 ho2
          rcases List.mem_cons.mp ho2 with h4 | h4
          · subst h4
            exact hent (name, isDir) (List.mem_cons_self _ _)
          · exact hacc o2 h4

/-- C10: every object returned by `ListObjects` has a key that is an
immediate directory entry name — never containing `/` — so an object
stored under a key containing `/` is not among the results of any
`ListObjects` call, for any prefix filter and any `maxKeys`. -/
theorem C10_nested_keys_never_listed (fs : Fs) (root bucket pre : String) (maxKeys : Nat)
    (key : String) (o : ObjectInfo)
    (ho : o ∈ (listObjects fs root bucket pre maxKeys).1)
    (hk : '/' ∈ key.data) :
    o.key ≠ key := by
  have hno : '/' ∉ o.key.data := by
    rw [listObjects] at ho
    exact listLoop_key_no_slash fs (bucketPath root bucket) pre maxKeys _ 0 []
      (dirEntries_no_slash fs (bucketPath root bucket)) (by simp) o ho
  intro he
  rw [he] at hno
  exact hno hk

/-- C10 witness: in a bucket holding objects `x` and `a/y`, the listing
entry `x` is returned and indeed differs from the nested key `a/y`. -/
theorem C10_witness :
    ({ key := "x", size := 1, etag := md5Hex (strBytes "x"),
       contentType := "application/octet-stream" } : ObjectInfo).key ≠ "a/y" :=
  C10_nested_keys_never_listed fs10 "data" "b" "" 1000 "a/y"
    { key := "x", size := 1, etag := md5Hex (strBytes "x"),
      contentType := "application/octet-stream" }
    (by decide) (by decide)



/-! ## C4 — Signature V4 verification vs the spec's canonicalization -/

/-- Regression: the code's canonical request reproduces the repository's
own unit-test vector (`TestCreateCanonicalRequest` in the auth tests). -/
theorem canonicalRequest_matches_repo_unit_test :
    createCanonicalRequest
      { method := "GET", path := "/bucket/object", rawQuery := "", host := "localhost:9000",
        headers := [("host", "localhost:9000"), ("x-amz-date", "20230101T000000Z"),
                    ("x-amz-content-sha256", "UNSIGNED-PAYLOAD")] }
      "host;x-amz-content-sha256;x-amz-date" =
    "GET\n/bucket/object\n\nhost:localhost:9000\nx-amz-content-sha256:UNSIGNED-PAYLOAD\nx-amz-date:20230101T000000Z\n\nhost;x-amz-content-sha256;x-amz-date\nUNSIGNED-PAYLOAD" := by
  decide

/-- C4 counterexample: for the request `reqEx` — a GET whose query value
contains a space — a signature computed exactly as §4.1 prescribes (RFC
3986 percent-encoding, `%20` for the space) is REJECTED with a signature
mismatch, because the code canonicalizes the query with `url.QueryEscape`
(`+` for the space): the two canonical requests differ. -/
theorem C4_counterexample :
    exceptErr (validateV4Signature cfgEx reqEx
      (authHeaderFor credEx shEx (specSignature cfgEx reqEx credEx shEx))) =
      some "signature mismatch" ∧
    specCanonicalRequest reqEx shEx ≠ createCanonicalRequest reqEx shEx := by
  constructor
  · decide
  · decide

/-- C4 amended: verification succeeds exactly when the supplied signature
equals the one computed over the CODE's canonicalization (decoded path,
Go query escaping with `+` for space, values in appearance order); any
other supplied signature — including one computed over the spec's RFC
3986 canonicalization whenever the two differ, or any bit-flipped
signature — is rejected with a signature mismatch. -/
theorem C4_amended_verify_iff_code_signature (cfg : Config) (r : Request)
    (cred sh sig : String) (authHeader : String)
    (hparse : parseAuthHeader authHeader = .ok (cred, sh, sig))
    (h5 : (splitOnChar '/' cred.data).length = 5)
    (hak : String.mk ((splitOnChar '/' cred.data).getD 0 []) = cfg.accessKey) :
    (validateV4Signature cfg r authHeader = .ok () ↔
      sig = calculateSignature cfg r cred sh) ∧
    (sig ≠ calculateSignature cfg r cred sh →
      validateV4Signature cfg r authHeader = .error "signature mismatch") := by
  have hv : validateV4Signature cfg r authHeader =
      if sig = calculateSignature cfg r cred sh then .ok () else .error "signature mismatch" := by
    rw [validateV4Signature, hparse]
    simp only [h5, hak, eq_self_iff_true, not_true, if_false, ne_eq]
    by_cases hs : sig = calculateSignature cfg r cred sh
    · simp [hs]
    · simp [hs]
  constructor
  · rw [hv]
    by_cases hs : sig = calculateSignature cfg r cred sh
    · simp [hs]
    · simp [hs]
  · intro hns
    rw [hv, if_neg hns]

/-- C4 witness: the amended statement at the concrete request `reqEx` with
a well-formed header carrying the placeholder signature `deadbeef`. -/
theorem C4_amended_witness :
    (validateV4Signature cfgEx reqEx (authHeaderFor credEx shEx "deadbeef") = .ok () ↔
      "deadbeef" = calculateSignature cfgEx reqEx credEx shEx) ∧
    ("deadbeef" ≠ calculateSignature cfgEx reqEx credEx shEx →
      validateV4Signature cfgEx reqEx (authHeaderFor credEx shEx "deadbeef") =
        .error "signature mismatch") :=
  C4_amended_verify_iff_code_signature cfgEx reqEx credEx shEx "deadbeef"
    (authHeaderFor credEx shEx "deadbeef") (by decide) (by decide) (by decide)

end PorterFS
